import Mathlib

/-!
Verification development for the StudyGeni backend
(`controllers/fileController.js`): the upload pipeline, the document
queries, the prompt builders, the quiz response cleanup and the JSON
decoding stage are embedded as executable Lean definitions, and the
behavioural properties of the controller are proved about them.
-/

set_option maxRecDepth 4000

namespace StudyGeni

/-! ## JSON values and a model of `JSON.parse`

`getQuiz` hands the cleaned response text to `JSON.parse`.  We model JSON
values with `JVal`; number values keep their source lexeme (no claim
inspects numeric values, and this avoids modelling JS floating point).
The parser is a recursive-descent parser over the character list, with a
fuel argument for structural termination; the fuel `length + 1` can never
be exhausted because every recursive call consumes at least one character
first.  `\uXXXX` escapes are decoded with `Char.ofNat` (surrogate halves
fall back to the default character; no claim involves them), and control
characters below 0x20 are rejected inside strings, as `JSON.parse` does.
-/

inductive JVal where
  | null : JVal
  | bool (b : Bool) : JVal
  | num (lexeme : String) : JVal
  | str (s : String) : JVal
  | arr (elems : List JVal) : JVal
  | obj (fields : List (String × JVal)) : JVal

def isJsonWs (c : Char) : Bool :=
  c = ' ' || c = '\t' || c = '\n' || c = '\r'

def skipWs : List Char → List Char
  | [] => []
  | c :: cs => if isJsonWs c then skipWs cs else c :: cs

def hexVal (c : Char) : Option Nat :=
  if '0' ≤ c ∧ c ≤ '9' then some (c.toNat - 48)
  else if 'a' ≤ c ∧ c ≤ 'f' then some (c.toNat - 87)
  else if 'A' ≤ c ∧ c ≤ 'F' then some (c.toNat - 55)
  else none

def parseStringBody : List Char → Option (List Char × List Char)
  | [] => none
  | c :: cs =>
    if c = '\x22' then some ([], cs)
    else if c = '\\' then
      match cs with
      | [] => none
      | e :: cs2 =>
        if e = '\x22' ∨ e = '\\' ∨ e = '/' then
          (parseStringBody cs2).map (fun p => (e :: p.1, p.2))
        else if e = 'b' then (parseStringBody cs2).map (fun p => ('\x08' :: p.1, p.2))
        else if e = 'f' then (parseStringBody cs2).map (fun p => ('\x0c' :: p.1, p.2))
        else if e = 'n' then (parseStringBody cs2).map (fun p => ('\n' :: p.1, p.2))
        else if e = 'r' then (parseStringBody cs2).map (fun p => ('\r' :: p.1, p.2))
        else if e = 't' then (parseStringBody cs2).map (fun p => ('\t' :: p.1, p.2))
        else if e = 'u' then
          match cs2 with
          | h1 :: h2 :: h3 :: h4 :: cs3 =>
            match hexVal h1, hexVal h2, hexVal h3, hexVal h4 with
            | some a, some b, some c', some d =>
              (parseStringBody cs3).map
                (fun p => (Char.ofNat (((a * 16 + b) * 16 + c') * 16 + d) :: p.1, p.2))
            | _, _, _, _ => none
          | _ => none
        else none
    else if c.toNat < 32 then none
    else (parseStringBody cs).map (fun p => (c :: p.1, p.2))

/-- Longest leading run of decimal digits, returned with the rest. -/
def spanDigits : List Char → List Char × List Char
  | [] => ([], [])
  | c :: cs =>
    if c.isDigit then
      let p := spanDigits cs
      (c :: p.1, p.2)
    else ([], c :: cs)

/-- JSON number grammar `-?(0|[1-9][0-9]*)(\.[0-9]+)?([eE][+-]?[0-9]+)?`,
returning the lexeme and the rest of the input. -/
def parseNumberLex (l : List Char) : Option (List Char × List Char) :=
  let (sign, r1) :=
    match l with
    | '-' :: rest => (['-'], rest)
    | rest => (([] : List Char), rest)
  match r1 with
  | [] => none
  | c :: cs =>
    if c = '0' then
      let intPart := [c]
      let rest := cs
      (goFrac sign intPart rest)
    else if c.isDigit then
      let p := spanDigits cs
      (goFrac sign (c :: p.1) p.2)
    else none
where
  goFrac (sign intPart : List Char) (rest : List Char) : Option (List Char × List Char) :=
    match rest with
    | '.' :: r2 =>
      match spanDigits r2 with
      | ([], _) => none
      | (ds, r3) => goExp sign (intPart ++ '.' :: ds) r3
    | _ => goExp sign intPart rest
  goExp (sign mantissa : List Char) (rest : List Char) : Option (List Char × List Char) :=
    match rest with
    | e :: r2 =>
      if e = 'e' ∨ e = 'E' then
        let (es, r3) :=
          match r2 with
          | '+' :: r3 => (([e, '+'] : List Char), r3)
          | '-' :: r3 => (([e, '-'] : List Char), r3)
          | r3 => ([e], r3)
        match spanDigits r3 with
        | ([], _) => none
        | (ds, r4) => some (sign ++ mantissa ++ es ++ ds, r4)
      else some (sign ++ mantissa, e :: r2)
    | [] => some (sign ++ mantissa, [])

/-- Recursive-descent JSON value parser.  After an element (resp. member)
and a comma, the remaining elements of an array (resp. object) are parsed
by re-entering the parser on `'['` (resp. `'{'`) prepended to the rest,
which parses exactly the remaining comma-separated tail; an immediate
closing bracket after a comma is rejected first, so trailing commas fail
exactly as in `JSON.parse`. -/
def parseVal : Nat → List Char → Option (JVal × List Char)
  | 0, _ => none
  | Nat.succ fuel, l =>
    match skipWs l with
    | 'n' :: 'u' :: 'l' :: 'l' :: rest => some (JVal.null, rest)
    | 't' :: 'r' :: 'u' :: 'e' :: rest => some (JVal.bool true, rest)
    | 'f' :: 'a' :: 'l' :: 's' :: 'e' :: rest => some (JVal.bool false, rest)
    | '\x22' :: rest =>
      (parseStringBody rest).map (fun p => (JVal.str (String.mk p.1), p.2))
    | '[' :: rest =>
      (match skipWs rest with
       | ']' :: r2 => some (JVal.arr [], r2)
       | r2 =>
         match parseVal fuel r2 with
         | none => none
         | some (v, r3) =>
           match skipWs r3 with
           | ']' :: r4 => some (JVal.arr [v], r4)
           | ',' :: r4 =>
             (match skipWs r4 with
              | ']' :: _ => none
              | r5 =>
                match parseVal fuel ('[' :: r5) with
                | some (JVal.arr vs, r6) => some (JVal.arr (v :: vs), r6)
                | _ => none)
           | _ => none)
    | '\x7b' :: rest =>
      (match skipWs rest with
       | '\x7d' :: r2 => some (JVal.obj [], r2)
       | '\x22' :: ks =>
         (match parseStringBody ks with
          | none => none
          | some (k, r3) =>
            match skipWs r3 with
            | ':' :: r4 =>
              (match parseVal fuel r4 with
               | none => none
               | some (v, r5) =>
                 match skipWs r5 with
                 | '\x7d' :: r6 => some (JVal.obj [(String.mk k, v)], r6)
                 | ',' :: r6 =>
                   (match skipWs r6 with
                    | '\x7d' :: _ => none
                    | r7 =>
                      match parseVal fuel ('\x7b' :: r7) with
                      | some (JVal.obj ms, r8) => some (JVal.obj ((String.mk k, v) :: ms), r8)
                      | _ => none)
                 | _ => none)
            | _ => none)
       | _ => none)
    | rest =>
      match parseNumberLex rest with
      | some (lex, r2) => some (JVal.num (String.mk lex), r2)
      | none => none

/-- Model of `JSON.parse`: parse one value and require that only
whitespace follows. -/
def jsonParse (s : String) : Option JVal :=
  match parseVal (s.length + 1) s.data with
  | some (v, rest) => if (skipWs rest).isEmpty then some v else none
  | none => none

/-! ## Cleanup of the quiz response text

`getQuiz` runs
`quizText.replace(/\x60\x60\x60json\n?/g, '').replace(/\x60\x60\x60\n?/g, '').trim()`
before `JSON.parse`.  Each global regex replace is a single left-to-right
scan that removes every non-overlapping match and never rescans the text
produced by a removal; `stripTagFuel` and `stripFenceFuel` implement
exactly that scan (the fuel equals the input length, and every step
consumes at least one character, so it never runs out).  The `\n?` is
greedy, as in JS. -/

def tick : Char := '\x60'

/-- The characters of the pattern `\x60\x60\x60json`. -/
def tagMarker : List Char := [tick, tick, tick, 'j', 's', 'o', 'n']

/-- The characters of the pattern `\x60\x60\x60`. -/
def fenceMarker : List Char := [tick, tick, tick]

/-- One global-replace scan: at each position, if the text starts with
`mark`, remove it together with a greedy optional newline and continue
after the removed match (no rescanning of already-produced text),
otherwise keep the character and move one position right. -/
def stripRunFuel (mark : List Char) : Nat → List Char → List Char
  | 0, l => l
  | Nat.succ n, l =>
    match l with
    | [] => []
    | c :: cs =>
      if mark.isPrefixOf (c :: cs) then
        match (c :: cs).drop mark.length with
        | d :: rest => if d = '\n' then stripRunFuel mark n rest else stripRunFuel mark n (d :: rest)
        | [] => []
      else c :: stripRunFuel mark n cs

/-- The scan with enough fuel (each step consumes at least one input
character, so the input length suffices). -/
def stripRun (mark : List Char) (l : List Char) : List Char :=
  stripRunFuel mark l.length l

/-- First replace pass of the cleanup: remove every occurrence of
`\x60\x60\x60json` with an optional trailing newline. -/
def stripJsonFence : List Char → List Char := stripRun tagMarker

/-- Second replace pass of the cleanup: remove every occurrence of
`\x60\x60\x60` with an optional trailing newline. -/
def stripFence : List Char → List Char := stripRun fenceMarker

/-- Removal of trailing whitespace (the right half of `trim`). -/
def trimRight : List Char → List Char
  | [] => []
  | c :: cs =>
    match trimRight cs with
    | [] => if isJsonWs c then [] else [c]
    | r => c :: r

/-- Model of `String.prototype.trim` (the whitespace actually occurring in
the handled payloads is covered by this set). -/
def trimChars (l : List Char) : List Char :=
  trimRight (l.dropWhile isJsonWs)

/-- Whether `\x60\x60\x60` occurs anywhere in the text. -/
def hasFence : List Char → Bool
  | [] => false
  | c :: cs => fenceMarker.isPrefixOf (c :: cs) || hasFence cs

/-- The full cleanup applied to the raw model output in `getQuiz`. -/
def quizCleanup (s : String) : String :=
  String.mk (trimChars (stripFence (stripJsonFence s.data)))

/-- The parsing stage of `getQuiz`: cleanup followed by `JSON.parse`. -/
def parseQuizText (raw : String) : Option JVal :=
  jsonParse (quizCleanup raw)

/-! ## Prompt builders

The two template literals of `getSummary` and `getQuiz`, verbatim.  A JS
falsy `description` (absent or empty) is rendered as `Not provided`. -/

def renderDescription (description : String) : String :=
  if description = "" then "Not provided" else description

def summaryPrompt (title subject description : String) : String :=
  "You are an educational AI assistant. Generate a comprehensive and well-structured summary for a study material.\n\nTitle: \"" ++ title
    ++ "\"\nSubject: " ++ subject
    ++ "\nDescription: " ++ renderDescription description
    ++ "\n\nPlease provide:\n1. A brief overview (2-3 sentences)\n2. Key concepts and topics covered (bullet points)\n3. Important points students should remember\n4. Learning objectives\n\nMake it educational, clear, and easy to understand for students."

def quizPrompt (title subject description : String) : String :=
  "You are an educational AI assistant. Generate a quiz for study material.\n\nTitle: \"" ++ title
    ++ "\"\nSubject: " ++ subject
    ++ "\nDescription: " ++ renderDescription description
    ++ "\n\nGenerate exactly 5 multiple-choice questions to test student understanding.\n\nIMPORTANT: Return ONLY a valid JSON array with no additional text, markdown, or formatting. Use this exact format:\n\n[\n  \x7b\n    \"question\": \"Question text here?\",\n    \"options\": [\"A) First option\", \"B) Second option\", \"C) Third option\", \"D) Fourth option\"],\n    \"correctAnswer\": \"A\",\n    \"explanation\": \"Brief explanation why this answer is correct\"\n  \x7d\n]\n\nRequirements:\n- Questions should test understanding, not just memorization\n- Options should be plausible and challenging\n- Explanations should be educational\n- Return ONLY the JSON array, nothing else"

/-! ## The upload pipeline (`uploadFile`)

The request carries the multipart fields and, when a file part was
present, its original filename: the upload-staging middleware (multer)
has already written the file to the local `uploads/` directory before
the controller runs, so a transient local copy exists exactly when
`req.file` is present.  The external collaborators — the Cloudinary
upload and the `File.create` database write — are passed in as their
outcomes, and the controller body is transcribed branch by branch,
including the `catch` handler (which unlinks the temp file only if it
still exists, and answers 500 with `error.message`). -/

structure UploadRequest where
  title : Option String
  description : Option String
  subject : Option String
  /-- `req.file.originalname`, when a file part is present. -/
  file : Option String
  deriving DecidableEq

/-- JS falsiness of a request field: absent, or the empty string. -/
def falsy : Option String → Bool
  | none => true
  | some s => s.isEmpty

inductive StorageResult where
  | ok (secureUrl publicId : String)
  | err (msg : String)
  deriving DecidableEq

inductive DbResult where
  | ok
  | err (msg : String)
  deriving DecidableEq

structure Document where
  title : String
  description : String
  subject : String
  fileUrl : String
  fileType : String
  publicId : String
  createdBy : String
  deriving DecidableEq

structure UploadOutcome where
  status : Nat
  success : Bool
  message : String
  /-- File records created by this request. -/
  docsCreated : List Document
  /-- Whether the transient local copy is still on disk afterwards. -/
  tempFileRemains : Bool
  /-- Whether an object was stored remotely by this request (and kept:
  the controller never deletes from Cloudinary). -/
  remoteObjectUploaded : Bool
  /-- Owner fields selected by `populate` for the response, when one ran. -/
  responseOwnerFields : Option (List String)
  deriving DecidableEq

def allowedTypes : List String := ["pdf", "docx", "ppt", "pptx"]

/-- `split('.')` on the characters: the chunks between the dots, in order
(an input without dots yields the single chunk of the whole input, like
the JS split). -/
def splitDotAux : List Char → List Char → List (List Char)
  | [], acc => [acc.reverse]
  | c :: cs, acc =>
    if c = '.' then acc.reverse :: splitDotAux cs []
    else splitDotAux cs (c :: acc)

/-- `req.file.originalname.split('.').pop().toLowerCase()` (ASCII
lowercasing; the allow-list comparison only involves ASCII anyway). -/
def fileExtOf (name : String) : String :=
  String.mk (((splitDotAux name.data []).getLastD []).map Char.toLower)

def uploadFile (req : UploadRequest) (userId : String)
    (storage : StorageResult) (db : DbResult) : UploadOutcome :=
  if falsy req.title || falsy req.subject then
    { status := 400, success := false, message := "Please provide title and subject",
      docsCreated := [], tempFileRemains := req.file.isSome,
      remoteObjectUploaded := false, responseOwnerFields := none }
  else
    match req.file with
    | none =>
      { status := 400, success := false, message := "Please upload a file",
        docsCreated := [], tempFileRemains := false,
        remoteObjectUploaded := false, responseOwnerFields := none }
    | some name =>
      let fileExt := fileExtOf name
      if ¬ allowedTypes.contains fileExt then
        -- fs.unlinkSync(req.file.path) before answering 400
        { status := 400, success := false,
          message := "Invalid file type. Only PDF, DOCX, PPT, PPTX allowed",
          docsCreated := [], tempFileRemains := false,
          remoteObjectUploaded := false, responseOwnerFields := none }
      else
        match storage with
        | StorageResult.err m =>
          -- cloudinary.uploader.upload threw: the catch handler unlinks the
          -- still-existing temp file and answers 500 with error.message
          { status := 500, success := false, message := m,
            docsCreated := [], tempFileRemains := false,
            remoteObjectUploaded := false, responseOwnerFields := none }
        | StorageResult.ok url pid =>
          -- fs.unlinkSync(req.file.path) after the successful upload
          match db with
          | DbResult.err m =>
            -- File.create threw: the temp file is already gone
            -- (fs.existsSync is false), 500 with error.message
            { status := 500, success := false, message := m,
              docsCreated := [], tempFileRemains := false,
              remoteObjectUploaded := true, responseOwnerFields := none }
          | DbResult.ok =>
            let doc : Document :=
              { title := req.title.getD "",
                description := (req.description.getD ""),
                subject := req.subject.getD "",
                fileUrl := url,
                fileType := if fileExt = "pptx" then "ppt" else fileExt,
                publicId := pid,
                createdBy := userId }
            { status := 201, success := true, message := "File uploaded successfully",
              docsCreated := [doc], tempFileRemains := false,
              remoteObjectUploaded := true,
              responseOwnerFields := some ["name", "email"] }

/-! ## Document queries (`getAllFiles`, `getFile`)

Users and stored file records; `populate(sel, fields)` is modelled by
projecting the owner onto the selected field names.  `getAllFiles` uses
`File.find().populate('createdBy', 'name email role').sort(\x7bcreatedAt: -1\x7d)`,
i.e. the selected owner fields include `role`, and the records are
ordered newest-first by `createdAt`; the sort is modelled with a stable
insertion sort under the newest-first relation. -/

structure User where
  name : String
  email : String
  role : String
  password : String
  deriving DecidableEq

structure StoredFile where
  id : String
  title : String
  description : String
  subject : String
  fileUrl : String
  fileType : String
  publicId : String
  createdBy : User
  createdAt : Nat
  deriving DecidableEq

/-- Mongoose field selection on the populated owner. -/
def selectFields (fields : List String) (u : User) : List (String × String) :=
  fields.filterMap fun f =>
    if f = "name" then some ("name", u.name)
    else if f = "email" then some ("email", u.email)
    else if f = "role" then some ("role", u.role)
    else if f = "password" then some ("password", u.password)
    else none

/-- The selection string `'name email role'` of `getAllFiles`/`getFile`. -/
def queryPopulateFields : List String := ["name", "email", "role"]

structure FileView where
  file : StoredFile
  owner : List (String × String)
  deriving DecidableEq

/-- Newest first: `sort(\x7bcreatedAt: -1\x7d)`. -/
def newestFirst (a b : StoredFile) : Prop := b.createdAt ≤ a.createdAt

instance : DecidableRel newestFirst := fun a b => Nat.decLe b.createdAt a.createdAt

instance : IsTotal StoredFile newestFirst :=
  ⟨fun a b => Nat.le_total b.createdAt a.createdAt⟩

instance : IsTrans StoredFile newestFirst :=
  ⟨fun _ _ _ hab hbc => Nat.le_trans hbc hab⟩

def getAllFiles (db : List StoredFile) : List FileView :=
  (List.insertionSort newestFirst db).map fun f =>
    { file := f, owner := selectFields queryPopulateFields f.createdBy }

/-- `getFile`: `File.findById(id).populate('createdBy', 'name email role')`;
`none` is the 404 "File not found" branch. -/
def getFile (db : List StoredFile) (id : String) : Option FileView :=
  match db.find? (fun f => f.id == id) with
  | none => none
  | some f => some { file := f, owner := selectFields queryPopulateFields f.createdBy }

/-! ## Artifact generation (`getSummary`, `getQuiz`)

The generation backend is a collaborator receiving the built prompt and
either returning the response text or failing; a failure makes the `try`
block throw, so the `catch` handler logs the error for operators
(`console.error`) and answers 500 with the fixed generic message.  In
`getQuiz` a `JSON.parse` failure throws inside the same `try` and lands
in the same handler (the logged detail is then the thrown SyntaxError,
modelled by a fixed marker string).  On a decoded value `v`,
`totalQuestions` is `quiz.length`: the element count for an array, the
length for a string, absent (undefined) for numbers, booleans and
objects; for `null` the member access itself throws a TypeError, which
again lands in the catch handler. -/

inductive GenResult where
  | ok (text : String)
  | err (msg : String)
  deriving DecidableEq

structure SummaryOutcome where
  status : Nat
  success : Bool
  /-- Caller-visible `message`, present on errors. -/
  message : Option String
  summary : Option String
  /-- What `console.error` recorded for operators. -/
  loggedDetail : Option String
  deriving DecidableEq

structure QuizOutcome where
  status : Nat
  success : Bool
  message : Option String
  quiz : Option JVal
  totalQuestions : Option Nat
  loggedDetail : Option String

def summaryFailureMessage : String := "Failed to generate summary. Please try again."

def quizFailureMessage : String := "Failed to generate quiz. Please try again."

def getSummary (found : Option StoredFile) (backend : String → GenResult) : SummaryOutcome :=
  match found with
  | none =>
    { status := 404, success := false, message := some "File not found",
      summary := none, loggedDetail := none }
  | some f =>
    match backend (summaryPrompt f.title f.subject f.description) with
    | GenResult.err m =>
      { status := 500, success := false, message := some summaryFailureMessage,
        summary := none, loggedDetail := some m }
    | GenResult.ok text =>
      { status := 200, success := true, message := none,
        summary := some text, loggedDetail := none }

/-- JS `quiz.length` on the decoded value, when defined. -/
def jsLengthOf : JVal → Option Nat
  | JVal.arr xs => some xs.length
  | JVal.str s => some s.length
  | _ => none

def getQuiz (found : Option StoredFile) (backend : String → GenResult) : QuizOutcome :=
  match found with
  | none =>
    { status := 404, success := false, message := some "File not found",
      quiz := none, totalQuestions := none, loggedDetail := none }
  | some f =>
    match backend (quizPrompt f.title f.subject f.description) with
    | GenResult.err m =>
      { status := 500, success := false, message := some quizFailureMessage,
        quiz := none, totalQuestions := none, loggedDetail := some m }
    | GenResult.ok raw =>
      match parseQuizText raw with
      | none =>
        { status := 500, success := false, message := some quizFailureMessage,
          quiz := none, totalQuestions := none,
          loggedDetail := some "SyntaxError from JSON.parse" }
      | some JVal.null =>
        { status := 500, success := false, message := some quizFailureMessage,
          quiz := none, totalQuestions := none,
          loggedDetail := some "TypeError reading length of null" }
      | some v =>
        { status := 200, success := true, message := none,
          quiz := some v, totalQuestions := jsLengthOf v, loggedDetail := none }

/-! ## The quiz shape required by the specification

Stated from the specification's words (claim C1): exactly 5 questions,
each an object with a `question` text, exactly 4 `options`, a
`correctAnswer` among A-D and an `explanation`.  The controller performs
no such validation; this definition exists to state that mismatch. -/

def specAnswerLabelOk (s : String) : Bool :=
  s = "A" || s = "B" || s = "C" || s = "D"

def specQuizQuestionOk (v : JVal) : Bool :=
  match v with
  | JVal.obj fields =>
    (match fields.lookup "question" with
     | some (JVal.str _) => true
     | _ => false)
    && (match fields.lookup "options" with
        | some (JVal.arr os) => os.length == 4
        | _ => false)
    && (match fields.lookup "correctAnswer" with
        | some (JVal.str a) => specAnswerLabelOk a
        | _ => false)
    && (match fields.lookup "explanation" with
        | some (JVal.str _) => true
        | _ => false)
  | _ => false

def specQuizShape (v : JVal) : Bool :=
  match v with
  | JVal.arr qs => (qs.length == 5) && qs.all specQuizQuestionOk
  | _ => false

/-! ## Sample data used by concrete evaluations -/

def demoUser : User :=
  { name := "Ann Lee", email := "ann@example.com", role := "teacher",
    password := "secret-hash" }

def demoFile : StoredFile :=
  { id := "f1", title := "Algebra Basics", description := "intro notes",
    subject := "Math", fileUrl := "https://cdn.example.com/x.pdf",
    fileType := "pdf", publicId := "p1", createdBy := demoUser, createdAt := 10 }

/-- A request passing every validation check of `uploadFile`. -/
def validUploadRequest (req : UploadRequest) : Bool :=
  !falsy req.title && !falsy req.subject &&
    (match req.file with
     | some n => allowedTypes.contains (fileExtOf n)
     | none => false)

/-! ## Claim theorems -/

/-- C2 (code bug, failing input): a request that uploads a file but omits
the title is rejected with the validation message, no Document is
created — but the transient local copy written by the upload middleware
is NOT deleted: the early `return` for missing title/subject skips the
`fs.unlinkSync` cleanup that the extension check and the catch handler
perform, so a temp file remains on disk, contradicting the claim that no
transient copy remains regardless of which check failed. -/
theorem upload_missing_title_leaves_temp_file :
    uploadFile
      { title := none, description := none, subject := some "Math",
        file := some "notes.pdf" }
      "u1" (StorageResult.err "not reached") DbResult.ok =
    { status := 400, success := false, message := "Please provide title and subject",
      docsCreated := [], tempFileRemains := true,
      remoteObjectUploaded := false, responseOwnerFields := none } := by
  rfl

/-- C3 (counterexample): with a valid request, a successful Cloudinary
upload and a failing `File.create`, the controller answers 500 with the
raw database error message (not a generic one) and the already-uploaded
remote object is never cleaned up — it remains while no Document
references it.  This falsifies the claim that either both steps succeed
or no orphaned remote object remains and the failure is reported with a
generic message. -/
theorem upload_record_write_failure_orphans_remote :
    uploadFile
      { title := some "Algebra Basics", description := some "d",
        subject := some "Math", file := some "notes.pdf" }
      "u1" (StorageResult.ok "https://cdn.example.com/x.pdf" "pid1")
      (DbResult.err "connection lost") =
    { status := 500, success := false, message := "connection lost",
      docsCreated := [], tempFileRemains := false,
      remoteObjectUploaded := true, responseOwnerFields := none } := by
  rfl

/-- C3 (amended): for every validated upload request, either both the
storage upload and the record write succeed (status 201, exactly one
Document), or no Document is created and the transient local file is
deleted; a storage failure leaves no remote object, but a record-write
failure after a successful upload leaves the remote object in place, and
both failures are reported with the underlying error's own message. -/
theorem upload_failure_semantics (req : UploadRequest) (uid : String)
    (st : StorageResult) (db : DbResult)
    (hv : validUploadRequest req = true) :
    (∀ m, st = StorageResult.err m →
      uploadFile req uid st db =
        { status := 500, success := false, message := m, docsCreated := [],
          tempFileRemains := false, remoteObjectUploaded := false,
          responseOwnerFields := none }) ∧
    (∀ u p m, st = StorageResult.ok u p → db = DbResult.err m →
      uploadFile req uid st db =
        { status := 500, success := false, message := m, docsCreated := [],
          tempFileRemains := false, remoteObjectUploaded := true,
          responseOwnerFields := none }) ∧
    (∀ u p, st = StorageResult.ok u p → db = DbResult.ok →
      (uploadFile req uid st db).status = 201 ∧
      (uploadFile req uid st db).docsCreated.length = 1) := by
  simp only [validUploadRequest, Bool.and_eq_true, Bool.not_eq_true'] at hv
  obtain ⟨⟨h1, h2⟩, h3⟩ := hv
  rcases hf : req.file with _ | name
  · rw [hf] at h3; exact absurd h3 (by simp)
  · rw [hf] at h3
    have hmem : fileExtOf name ∈ allowedTypes := by simpa using h3
    refine ⟨?_, ?_, ?_⟩
    · rintro m rfl
      simp [uploadFile, h1, h2, hf, hmem]
    · rintro u p m rfl rfl
      simp [uploadFile, h1, h2, hf, hmem]
    · rintro u p rfl rfl
      constructor <;> simp [uploadFile, h1, h2, hf, hmem]

/-- Witness for `upload_failure_semantics` at a concrete request with a
failing storage upload. -/
theorem upload_failure_semantics_witness :
    uploadFile
      { title := some "Algebra Basics", description := some "d",
        subject := some "Math", file := some "notes.pdf" }
      "u1" (StorageResult.err "socket hang up") DbResult.ok =
    { status := 500, success := false, message := "socket hang up",
      docsCreated := [], tempFileRemains := false,
      remoteObjectUploaded := false, responseOwnerFields := none } :=
  (upload_failure_semantics _ "u1" _ DbResult.ok (by decide)).1 "socket hang up" rfl

/-- C7: the prompt builders are pure functions of title, subject and
description (by construction they perform no I/O), and any two
invocations with equal inputs render byte-identical prompt text, in both
summary and quiz mode. -/
theorem prompt_builders_deterministic (t1 s1 d1 t2 s2 d2 : String)
    (ht : t1 = t2) (hs : s1 = s2) (hd : d1 = d2) :
    summaryPrompt t1 s1 d1 = summaryPrompt t2 s2 d2 ∧
    quizPrompt t1 s1 d1 = quizPrompt t2 s2 d2 := by
  subst ht; subst hs; subst hd; exact ⟨rfl, rfl⟩

/-- Witness for `prompt_builders_deterministic`. -/
theorem prompt_builders_deterministic_witness :
    summaryPrompt "Algebra Basics" "Math" "" = summaryPrompt "Algebra Basics" "Math" "" ∧
    quizPrompt "Algebra Basics" "Math" "" = quizPrompt "Algebra Basics" "Math" "" :=
  prompt_builders_deterministic _ _ _ _ _ _ rfl rfl rfl

/-- C8: a successful upload creates exactly one Document whose
`fileType` is the lower-cased extension normalized into the closed set
(`pptx` collapsing to `ppt`) and whose `fileUrl` is the storage URL,
hence non-empty whenever the storage collaborator returns a non-empty
URL. -/
theorem upload_success_creates_normalized_document
    (req : UploadRequest) (uid url pid name : String)
    (hf : req.file = some name)
    (ht : falsy req.title = false) (hs : falsy req.subject = false)
    (he : allowedTypes.contains (fileExtOf name) = true)
    (hu : url ≠ "") :
    (uploadFile req uid (StorageResult.ok url pid) DbResult.ok).status = 201 ∧
    (uploadFile req uid (StorageResult.ok url pid) DbResult.ok).docsCreated.map
        Document.fileType =
      [if fileExtOf name = "pptx" then "ppt" else fileExtOf name] ∧
    ((if fileExtOf name = "pptx" then "ppt" else fileExtOf name) = "pdf" ∨
     (if fileExtOf name = "pptx" then "ppt" else fileExtOf name) = "docx" ∨
     (if fileExtOf name = "pptx" then "ppt" else fileExtOf name) = "ppt") ∧
    (uploadFile req uid (StorageResult.ok url pid) DbResult.ok).docsCreated.map
        Document.fileUrl = [url] ∧
    url ≠ "" := by
  have hmem : fileExtOf name ∈ allowedTypes := by simpa using he
  have hcases : fileExtOf name = "pdf" ∨ fileExtOf name = "docx" ∨
      fileExtOf name = "ppt" ∨ fileExtOf name = "pptx" := by
    simpa [allowedTypes] using he
  refine ⟨?_, ?_, ?_, ?_, hu⟩
  · simp [uploadFile, ht, hs, hf, hmem]
  · simp [uploadFile, ht, hs, hf, hmem]
  · rcases hcases with h | h | h | h <;> simp [h]
  · simp [uploadFile, ht, hs, hf, hmem]

/-- Witness for `upload_success_creates_normalized_document` at an
upper-case `pptx` filename, exercising the case-insensitive extension
handling and the `pptx` to `ppt` normalization. -/
theorem upload_success_creates_normalized_document_witness :
    (uploadFile
      { title := some "Deck", description := none, subject := some "History",
        file := some "Slides.PPTX" }
      "u2" (StorageResult.ok "https://cdn.example.com/d.pptx" "pid2")
      DbResult.ok).status = 201 ∧
    (uploadFile
      { title := some "Deck", description := none, subject := some "History",
        file := some "Slides.PPTX" }
      "u2" (StorageResult.ok "https://cdn.example.com/d.pptx" "pid2")
      DbResult.ok).docsCreated.map Document.fileType =
      [if fileExtOf "Slides.PPTX" = "pptx" then "ppt" else fileExtOf "Slides.PPTX"] ∧
    ((if fileExtOf "Slides.PPTX" = "pptx" then "ppt" else fileExtOf "Slides.PPTX") = "pdf" ∨
     (if fileExtOf "Slides.PPTX" = "pptx" then "ppt" else fileExtOf "Slides.PPTX") = "docx" ∨
     (if fileExtOf "Slides.PPTX" = "pptx" then "ppt" else fileExtOf "Slides.PPTX") = "ppt") ∧
    (uploadFile
      { title := some "Deck", description := none, subject := some "History",
        file := some "Slides.PPTX" }
      "u2" (StorageResult.ok "https://cdn.example.com/d.pptx" "pid2")
      DbResult.ok).docsCreated.map Document.fileUrl =
      ["https://cdn.example.com/d.pptx"] ∧
    ("https://cdn.example.com/d.pptx" : String) ≠ "" :=
  upload_success_creates_normalized_document _ "u2" _ "pid2" "Slides.PPTX"
    rfl rfl rfl (by decide) (by decide)

/-- C4: when the generation backend fails (summary or quiz), or the quiz
response fails to decode, the caller only sees the fixed generic
failure message — never the backend's own error text — while the
underlying detail is recorded for operators. -/
theorem generation_failures_hidden_from_caller (f : StoredFile) (m raw : String)
    (hp : parseQuizText raw = none) :
    ((getSummary (some f) (fun _ => GenResult.err m)).message = some summaryFailureMessage ∧
     (getSummary (some f) (fun _ => GenResult.err m)).success = false ∧
     (getSummary (some f) (fun _ => GenResult.err m)).loggedDetail = some m) ∧
    ((getQuiz (some f) (fun _ => GenResult.err m)).message = some quizFailureMessage ∧
     (getQuiz (some f) (fun _ => GenResult.err m)).success = false ∧
     (getQuiz (some f) (fun _ => GenResult.err m)).loggedDetail = some m) ∧
    ((getQuiz (some f) (fun _ => GenResult.ok raw)).message = some quizFailureMessage ∧
     (getQuiz (some f) (fun _ => GenResult.ok raw)).success = false ∧
     (getQuiz (some f) (fun _ => GenResult.ok raw)).loggedDetail.isSome = true) := by
  refine ⟨⟨rfl, rfl, rfl⟩, ⟨rfl, rfl, rfl⟩, ?_⟩
  simp [getQuiz, hp]

/-- Witness for `generation_failures_hidden_from_caller`: a concrete
backend error and a prose (non-JSON) quiz response. -/
theorem generation_failures_hidden_from_caller_witness :
    ((getSummary (some demoFile) (fun _ => GenResult.err "quota exceeded")).message =
        some summaryFailureMessage ∧
     (getSummary (some demoFile) (fun _ => GenResult.err "quota exceeded")).success = false ∧
     (getSummary (some demoFile) (fun _ => GenResult.err "quota exceeded")).loggedDetail =
        some "quota exceeded") ∧
    ((getQuiz (some demoFile) (fun _ => GenResult.err "quota exceeded")).message =
        some quizFailureMessage ∧
     (getQuiz (some demoFile) (fun _ => GenResult.err "quota exceeded")).success = false ∧
     (getQuiz (some demoFile) (fun _ => GenResult.err "quota exceeded")).loggedDetail =
        some "quota exceeded") ∧
    ((getQuiz (some demoFile) (fun _ => GenResult.ok "I cannot answer that.")).message =
        some quizFailureMessage ∧
     (getQuiz (some demoFile) (fun _ => GenResult.ok "I cannot answer that.")).success = false ∧
     (getQuiz (some demoFile)
        (fun _ => GenResult.ok "I cannot answer that.")).loggedDetail.isSome = true) :=
  generation_failures_hidden_from_caller demoFile "quota exceeded"
    "I cannot answer that." (by rfl)

/-- C9: whenever a successful quiz response carries a decoded array, the
`totalQuestions` field equals the number of entries of that array,
whatever that number is. -/
theorem quiz_totalQuestions_matches_array_length (found : Option StoredFile)
    (backend : String → GenResult) (xs : List JVal)
    (h : (getQuiz found backend).quiz = some (JVal.arr xs)) :
    (getQuiz found backend).totalQuestions = some xs.length := by
  rcases found with _ | f
  · simp [getQuiz] at h
  · rcases hb : backend (quizPrompt f.title f.subject f.description) with raw | m
    · rcases hp : parseQuizText raw with _ | v
      · simp [getQuiz, hb, hp] at h
      · rcases v with _ | b | lex | s | elems | fields <;>
          simp [getQuiz, hb, hp, jsLengthOf] at h ⊢
        · exact congrArg List.length h
    · simp [getQuiz, hb] at h

/-- Witness for `quiz_totalQuestions_matches_array_length`: a decoded
two-element array yields `totalQuestions = 2`. -/
theorem quiz_totalQuestions_matches_array_length_witness :
    (getQuiz (some demoFile)
      (fun _ => GenResult.ok "[true, false]")).totalQuestions =
      some [JVal.bool true, JVal.bool false].length :=
  quiz_totalQuestions_matches_array_length _ _ [JVal.bool true, JVal.bool false] (by rfl)

/-- C5 (counterexample): `getAllFiles` and `getFile` populate the owner
with `'name email role'`, so the owner information attached to a
returned Document contains the `role` field as well — falsifying the
claim that only the display fields name and email are exposed there. -/
theorem queries_expose_owner_role :
    (getAllFiles [demoFile]).map FileView.owner =
      [[("name", "Ann Lee"), ("email", "ann@example.com"), ("role", "teacher")]] ∧
    (getFile [demoFile] "f1").map FileView.owner =
      some [("name", "Ann Lee"), ("email", "ann@example.com"), ("role", "teacher")] := by
  exact ⟨rfl, rfl⟩

/-- C5 (amended): `findAll` returns all Documents newest-first by
creation time (a permutation of the store, sorted by descending
`createdAt`), and the owner information attached by `findAll` and
`findById` consists of exactly the fields name, email and role — while
the Document returned by `create` selects name and email only. -/
theorem findAll_newest_first_and_owner_fields :
    (∀ db : List StoredFile,
      List.Sorted newestFirst ((getAllFiles db).map FileView.file) ∧
      ((getAllFiles db).map FileView.file).Perm db ∧
      ∀ v ∈ getAllFiles db, v.owner.map Prod.fst = ["name", "email", "role"]) ∧
    (∀ (db : List StoredFile) (id : String) (v : FileView),
      getFile db id = some v → v.owner.map Prod.fst = ["name", "email", "role"]) ∧
    (∀ (req : UploadRequest) (uid : String) (st : StorageResult) (dbr : DbResult),
      (uploadFile req uid st dbr).responseOwnerFields = none ∨
      (uploadFile req uid st dbr).responseOwnerFields = some ["name", "email"]) := by
  have hid : ∀ l : List StoredFile,
      (l.map fun f =>
        ({ file := f, owner := selectFields queryPopulateFields f.createdBy } :
          FileView)).map FileView.file = l := by
    intro l
    induction l with
    | nil => rfl
    | cons a t ih => simp [ih]
  have hmap : ∀ db : List StoredFile,
      (getAllFiles db).map FileView.file = List.insertionSort newestFirst db := by
    intro db
    unfold getAllFiles
    exact hid _
  refine ⟨fun db => ⟨?_, ?_, ?_⟩, ?_, ?_⟩
  · rw [hmap]
    exact List.sorted_insertionSort newestFirst db
  · rw [hmap]
    exact List.perm_insertionSort newestFirst db
  · intro v hv
    simp only [getAllFiles, List.mem_map] at hv
    obtain ⟨f, _, rfl⟩ := hv
    rfl
  · intro db id v hv
    unfold getFile at hv
    rcases hfind : db.find? (fun f => f.id == id) with _ | f
    · rw [hfind] at hv; exact absurd hv (by simp)
    · rw [hfind] at hv
      cases hv
      rfl
  · intro req uid st dbr
    unfold uploadFile
    repeat' split
    all_goals try simp
    all_goals (split <;> simp)

/-- Witness for `findAll_newest_first_and_owner_fields`: the owner
fields attached by `findById` at a concrete store. -/
theorem findAll_newest_first_and_owner_fields_witness :
    ({ file := demoFile,
       owner := selectFields queryPopulateFields demoUser } : FileView).owner.map
        Prod.fst = ["name", "email", "role"] :=
  findAll_newest_first_and_owner_fields.2.1 [demoFile] "f1" _ rfl

/-- The response text of claim C1's failing input: well-formed JSON that
decodes to a single-entry array whose `correctAnswer` is `E`. -/
def badQuizRaw : String :=
  "[\x7b\"question\":\"Only one question?\",\"options\":[\"A) a\",\"B) b\",\"C) c\",\"D) d\"],\"correctAnswer\":\"E\",\"explanation\":\"nope\"\x7d]"

/-- The decoded value of `badQuizRaw`. -/
def badQuizVal : JVal :=
  JVal.arr [JVal.obj
    [("question", JVal.str "Only one question?"),
     ("options", JVal.arr [JVal.str "A) a", JVal.str "B) b", JVal.str "C) c", JVal.str "D) d"]),
     ("correctAnswer", JVal.str "E"),
     ("explanation", JVal.str "nope")]]

/-! ## Lemmas about the scanner underlying the two replace passes -/

theorem isPrefixOf_length_le {p l : List Char} (h : p.isPrefixOf l = true) :
    p.length ≤ l.length := by
  induction p generalizing l with
  | nil => simp
  | cons a as ih =>
    cases l with
    | nil => simp [List.isPrefixOf] at h
    | cons b bs =>
      simp only [List.isPrefixOf_cons₂, Bool.and_eq_true] at h
      simpa using ih h.2

theorem isPrefixOf_eq_append {p l : List Char} (h : p.isPrefixOf l = true) :
    l = p ++ l.drop p.length := by
  induction p generalizing l with
  | nil => simp
  | cons a as ih =>
    cases l with
    | nil => simp [List.isPrefixOf] at h
    | cons b bs =>
      simp only [List.isPrefixOf_cons₂, Bool.and_eq_true, beq_iff_eq] at h
      obtain ⟨rfl, h2⟩ := h
      simpa using ih h2

theorem isPrefixOf_self_append (p x : List Char) : p.isPrefixOf (p ++ x) = true := by
  induction p with
  | nil => simp
  | cons a as ih => simp [List.isPrefixOf_cons₂, ih]

theorem isPrefixOf_append_stable {p a : List Char} (b : List Char)
    (h : p.length ≤ a.length) : p.isPrefixOf (a ++ b) = p.isPrefixOf a := by
  induction p generalizing a with
  | nil => simp
  | cons x xs ih =>
    cases a with
    | nil => simp at h
    | cons y ys =>
      simp only [List.cons_append, List.isPrefixOf_cons₂]
      rw [ih (by simpa using h)]

theorem isPrefixOf_trans {p q l : List Char} (h1 : p.isPrefixOf q = true)
    (h2 : q.isPrefixOf l = true) : p.isPrefixOf l = true := by
  induction p generalizing q l with
  | nil => simp
  | cons a as ih =>
    cases q with
    | nil => simp [List.isPrefixOf] at h1
    | cons b bs =>
      cases l with
      | nil => simp [List.isPrefixOf] at h2
      | cons c cs =>
        simp only [List.isPrefixOf_cons₂, Bool.and_eq_true, beq_iff_eq] at h1 h2 ⊢
        exact ⟨h1.1.trans h2.1, ih h1.2 h2.2⟩

/-- The fuel of the scan is irrelevant as soon as it covers the input
length. -/
theorem stripRunFuel_congr (mark : List Char) (hm : mark ≠ []) :
    ∀ (k m n : Nat) (l : List Char), l.length ≤ m → l.length ≤ n → l.length ≤ k →
      stripRunFuel mark m l = stripRunFuel mark n l := by
  have hmpos : 1 ≤ mark.length := by
    cases mark with
    | nil => exact absurd rfl hm
    | cons a as => simp
  intro k
  induction k with
  | zero =>
    intro m n l _ _ hk
    have : l = [] := List.length_eq_zero.mp (Nat.le_zero.mp hk)
    subst this
    cases m <;> cases n <;> rfl
  | succ k ih =>
    intro m n l hm' hn hk
    rcases l with _ | ⟨c, cs⟩
    · cases m <;> cases n <;> rfl
    · rcases m with _ | m
      · simp at hm'
      · rcases n with _ | n
        · simp at hn
        · simp only [List.length_cons] at hm' hn hk
          simp only [stripRunFuel]
          by_cases hp : mark.isPrefixOf (c :: cs) = true
          · have hlen : mark.length ≤ cs.length + 1 := by
              simpa using isPrefixOf_length_le hp
            simp only [hp, if_true]
            rcases hd : (c :: cs).drop mark.length with _ | ⟨d, rest⟩
            · rfl
            · have hrest : cs.length + 1 - mark.length = rest.length + 1 := by
                have := congrArg List.length hd
                simpa [List.length_drop] using this
              by_cases hnl : d = '\n'
              · subst hnl
                simp only [if_pos rfl]
                exact ih m n rest (by omega) (by omega) (by omega)
              · simp only [if_neg hnl]
                exact ih m n (d :: rest) (by simp; omega) (by simp; omega) (by simp; omega)
          · have hp' : mark.isPrefixOf (c :: cs) = false := Bool.not_eq_true _ |>.mp hp
            simp only [hp', Bool.false_eq_true, if_false]
            rw [ih m n cs (by omega) (by omega) (by omega)]

/-- Rewriting a fuelled scan to the canonical wrapper. -/
theorem stripRunFuel_eq_stripRun (mark : List Char) (hm : mark ≠ []) (n : Nat)
    (l : List Char) (h : l.length ≤ n) : stripRunFuel mark n l = stripRun mark l :=
  stripRunFuel_congr mark hm (max n l.length) n l.length l h le_rfl (le_max_right _ _)

/-- Unfolding of one scan step. -/
theorem stripRunFuel_succ (mark : List Char) (n : Nat) (c : Char) (cs : List Char) :
    stripRunFuel mark (n + 1) (c :: cs) =
      if mark.isPrefixOf (c :: cs) then
        (match (c :: cs).drop mark.length with
         | d :: rest => if d = '\n' then stripRunFuel mark n rest else stripRunFuel mark n (d :: rest)
         | [] => [])
      else c :: stripRunFuel mark n cs := rfl

theorem stripRun_cons_of_neg {mark : List Char} {c : Char} {cs : List Char}
    (h : mark.isPrefixOf (c :: cs) = false) :
    stripRun mark (c :: cs) = c :: stripRun mark cs := by
  show stripRunFuel mark (cs.length + 1) (c :: cs) = _
  rw [stripRunFuel_succ, h]
  simp [stripRun]

/-- A scan step at a full match followed by a newline removes both. -/
theorem stripRun_match_nl (mark : List Char) (hm : mark ≠ []) (u : List Char) :
    stripRun mark (mark ++ '\n' :: u) = stripRun mark u := by
  rcases mark with _ | ⟨m0, ms⟩
  · exact absurd rfl hm
  · show stripRunFuel _ ((m0 :: ms ++ '\n' :: u).length) _ = _
    rw [List.cons_append, List.length_cons, stripRunFuel_succ,
      if_pos (by rw [← List.cons_append]; exact isPrefixOf_self_append _ _)]
    have hdrop : (m0 :: (ms ++ '\n' :: u)).drop (m0 :: ms).length = '\n' :: u := by
      simp only [List.length_cons, List.drop_succ_cons]
      exact List.drop_left' rfl
    rw [hdrop]
    simp only [if_pos rfl]
    exact stripRunFuel_eq_stripRun _ (by simp) _ _ (by simp; omega)

/-- A scan step at a full match not followed by a newline removes the
match only. -/
theorem stripRun_match_cons (mark : List Char) (hm : mark ≠ []) {d : Char}
    (u : List Char) (hd : d ≠ '\n') :
    stripRun mark (mark ++ d :: u) = stripRun mark (d :: u) := by
  rcases mark with _ | ⟨m0, ms⟩
  · exact absurd rfl hm
  · show stripRunFuel _ ((m0 :: ms ++ d :: u).length) _ = _
    rw [List.cons_append, List.length_cons, stripRunFuel_succ,
      if_pos (by rw [← List.cons_append]; exact isPrefixOf_self_append _ _)]
    have hdrop : (m0 :: (ms ++ d :: u)).drop (m0 :: ms).length = d :: u := by
      simp only [List.length_cons, List.drop_succ_cons]
      exact List.drop_left' rfl
    rw [hdrop]
    simp only [if_neg hd]
    exact stripRunFuel_eq_stripRun _ (by simp) _ _ (by simp)

/-- The `\x60\x60\x60json` pattern cannot match across the boundary into
the closing-fence tail: the tail starts with a newline, and no pattern
position may hold a newline. -/
theorem tagMarker_span (k zs : List Char) (h : k.length < 7) :
    tagMarker.isPrefixOf (k ++ '\n' :: zs) = false := by
  rcases k with _ | ⟨a, _ | ⟨b, _ | ⟨c, _ | ⟨d, _ | ⟨e, _ | ⟨f, _ | ⟨g, k'⟩⟩⟩⟩⟩⟩⟩
  · simp [tagMarker, tick, List.isPrefixOf_cons₂]
  · simp [tagMarker, tick, List.isPrefixOf_cons₂]
  · simp [tagMarker, tick, List.isPrefixOf_cons₂]
  · simp [tagMarker, tick, List.isPrefixOf_cons₂]
  · simp [tagMarker, tick, List.isPrefixOf_cons₂]
  · simp [tagMarker, tick, List.isPrefixOf_cons₂]
  · simp [tagMarker, tick, List.isPrefixOf_cons₂]
  · exfalso
    simp only [List.length_cons] at h
    omega

/-- Likewise for the `\x60\x60\x60` pattern. -/
theorem fenceMarker_span (k zs : List Char) (h : k.length < 3) :
    fenceMarker.isPrefixOf (k ++ '\n' :: zs) = false := by
  rcases k with _ | ⟨a, _ | ⟨b, _ | ⟨c, k'⟩⟩⟩
  · simp [fenceMarker, tick, List.isPrefixOf_cons₂]
  · simp [fenceMarker, tick, List.isPrefixOf_cons₂]
  · simp [fenceMarker, tick, List.isPrefixOf_cons₂]
  · exfalso
    simp only [List.length_cons] at h
    omega

theorem getLast?_append_cons (xs : List Char) (y : Char) (ys : List Char) :
    (xs ++ y :: ys).getLast? = (y :: ys).getLast? := by
  rw [List.getLast?_append]
  exact Option.or_of_isSome (by simp)

theorem stripRun_nil (mark : List Char) : stripRun mark [] = [] := rfl

/-- The scan never removes a final `']'`: a match consumes only marker
characters and newlines. -/
theorem stripRun_getLast (mark : List Char) (hm : mark ≠ [])
    (hz : mark.getLast? ≠ some ']') :
    ∀ (k : Nat) (l : List Char), l.length ≤ k → l.getLast? = some ']' →
      (stripRun mark l).getLast? = some ']' := by
  have hmpos : 1 ≤ mark.length := by
    cases mark with
    | nil => exact absurd rfl hm
    | cons a as => simp
  intro k
  induction k with
  | zero =>
    intro l hk hl
    have : l = [] := List.length_eq_zero.mp (Nat.le_zero.mp hk)
    subst this; simp at hl
  | succ k ih =>
    intro l hk hl
    by_cases hp : mark.isPrefixOf l = true
    · have hdec := isPrefixOf_eq_append hp
      rcases hu : l.drop mark.length with _ | ⟨d, u'⟩
      · rw [hu, List.append_nil] at hdec
        rw [hdec] at hl
        exact absurd hl hz
      · rw [hu] at hdec
        have hll : l.length = mark.length + (u'.length + 1) := by
          rw [hdec]; simp
        by_cases hd : d = '\n'
        · subst hd
          rw [hdec, stripRun_match_nl mark hm]
          rcases u' with _ | ⟨e, u''⟩
          · rw [hdec, getLast?_append_cons] at hl
            simp at hl
          · rw [hdec, getLast?_append_cons, List.getLast?_cons_cons] at hl
            refine ih (e :: u'') ?_ hl
            simp only [List.length_cons] at hll ⊢
            omega
        · rw [hdec, stripRun_match_cons mark hm u' hd]
          rw [hdec, getLast?_append_cons] at hl
          refine ih (d :: u') ?_ hl
          simp only [List.length_cons] at hll ⊢
          omega
    · have hp' : mark.isPrefixOf l = false := Bool.not_eq_true _ |>.mp hp
      rcases l with _ | ⟨c, cs⟩
      · simp at hl
      · rw [stripRun_cons_of_neg hp']
        rcases cs with _ | ⟨c2, cs2⟩
        · simpa [stripRun_nil] using hl
        · rw [List.getLast?_cons_cons] at hl
          have hres := ih (c2 :: cs2) (by simp only [List.length_cons] at hk ⊢; omega) hl
          rcases hr : stripRun mark (c2 :: cs2) with _ | ⟨r, rs⟩
          · rw [hr] at hres
            simp at hres
          · rw [hr] at hres
            rw [List.getLast?_cons_cons]
            exact hres

/-- Appending the closing-fence tail `"\n\x60\x60\x60"` to a text ending
in `']'` commutes with the scan: no match can span the boundary, because
the tail starts with a newline and a match ending exactly at the text's
end would require the text to end in the marker, not in `']'`. -/
theorem stripRun_append_tail (mark : List Char) (hm : mark ≠ [])
    (hz : mark.getLast? ≠ some ']')
    (hspan : ∀ (p zs : List Char), p.length < mark.length →
      mark.isPrefixOf (p ++ '\n' :: zs) = false) :
    ∀ (k : Nat) (l : List Char), l.length ≤ k → l.getLast? = some ']' →
      stripRun mark (l ++ '\n' :: fenceMarker) =
        stripRun mark l ++ stripRun mark ('\n' :: fenceMarker) := by
  have hmpos : 1 ≤ mark.length := by
    cases mark with
    | nil => exact absurd rfl hm
    | cons a as => simp
  intro k
  induction k with
  | zero =>
    intro l hk hl
    have : l = [] := List.length_eq_zero.mp (Nat.le_zero.mp hk)
    subst this; simp at hl
  | succ k ih =>
    intro l hk hl
    by_cases hp : mark.isPrefixOf l = true
    · have hdec := isPrefixOf_eq_append hp
      rcases hu : l.drop mark.length with _ | ⟨d, u'⟩
      · rw [hu, List.append_nil] at hdec
        rw [hdec] at hl
        exact absurd hl hz
      · rw [hu] at hdec
        have hll : l.length = mark.length + (u'.length + 1) := by
          rw [hdec]; simp
        by_cases hd : d = '\n'
        · subst hd
          rcases u' with _ | ⟨e, u''⟩
          · rw [hdec, getLast?_append_cons] at hl
            simp at hl
          · rw [hdec]
            have hassoc : (mark ++ '\n' :: (e :: u'')) ++ '\n' :: fenceMarker
                = mark ++ '\n' :: ((e :: u'') ++ '\n' :: fenceMarker) := by simp
            rw [hassoc, stripRun_match_nl mark hm, stripRun_match_nl mark hm]
            have hl' : (e :: u'').getLast? = some ']' := by
              rw [hdec, getLast?_append_cons, List.getLast?_cons_cons] at hl
              exact hl
            refine ih (e :: u'') ?_ hl'
            simp only [List.length_cons] at hll ⊢
            omega
        · rw [hdec]
          have hassoc : (mark ++ d :: u') ++ '\n' :: fenceMarker
              = mark ++ d :: (u' ++ '\n' :: fenceMarker) := by simp
          rw [hassoc, stripRun_match_cons mark hm _ hd, stripRun_match_cons mark hm u' hd]
          have hl' : (d :: u').getLast? = some ']' := by
            rw [hdec, getLast?_append_cons] at hl
            exact hl
          have hassoc2 : d :: (u' ++ '\n' :: fenceMarker) = (d :: u') ++ '\n' :: fenceMarker := by
            simp
          rw [hassoc2]
          refine ih (d :: u') ?_ hl'
          simp only [List.length_cons] at hll ⊢
          omega
    · have hp' : mark.isPrefixOf l = false := Bool.not_eq_true _ |>.mp hp
      rcases l with _ | ⟨c, cs⟩
      · simp at hl
      · have hpfull : mark.isPrefixOf (c :: (cs ++ '\n' :: fenceMarker)) = false := by
          by_cases hlen : mark.length ≤ (c :: cs).length
          · rw [← List.cons_append, isPrefixOf_append_stable _ hlen]
            exact hp'
          · have := hspan (c :: cs) fenceMarker (by omega)
            simpa using this
        rw [List.cons_append, stripRun_cons_of_neg hpfull, stripRun_cons_of_neg hp']
        rcases cs with _ | ⟨c2, cs2⟩
        · simp [stripRun_nil]
        · have hl' : (c2 :: cs2).getLast? = some ']' := by
            rw [List.getLast?_cons_cons] at hl
            exact hl
          simp only [List.cons_append]
          congr 1
          exact ih (c2 :: cs2) (by simp only [List.length_cons] at hk ⊢; omega) hl'

/-! ## The cleanup commutes with fence wrapping -/

theorem trimRight_append_nl (l : List Char) : trimRight (l ++ ['\n']) = trimRight l := by
  induction l with
  | nil => rfl
  | cons c cs ih => simp [trimRight, ih]

theorem trimChars_append_nl (l : List Char) : trimChars (l ++ ['\n']) = trimChars l := by
  unfold trimChars
  rw [List.dropWhile_append]
  rcases h : l.dropWhile isJsonWs with _ | ⟨c, cs⟩
  · simp [List.dropWhile, isJsonWs]
  · simp only [List.isEmpty_cons, if_neg Bool.false_ne_true]
    exact trimRight_append_nl _

theorem stripJsonFence_bare_open (x : List Char) :
    stripRun tagMarker (fenceMarker ++ '\n' :: x) =
      fenceMarker ++ '\n' :: stripRun tagMarker x := by
  have h1 : tagMarker.isPrefixOf (tick :: tick :: tick :: '\n' :: x) = false := by
    simp [tagMarker, tick, List.isPrefixOf_cons₂]
  have h2 : tagMarker.isPrefixOf (tick :: tick :: '\n' :: x) = false := by
    simp [tagMarker, tick, List.isPrefixOf_cons₂]
  have h3 : tagMarker.isPrefixOf (tick :: '\n' :: x) = false := by
    simp [tagMarker, tick, List.isPrefixOf_cons₂]
  have h4 : tagMarker.isPrefixOf ('\n' :: x) = false := by
    simp [tagMarker, tick, List.isPrefixOf_cons₂]
  show stripRun tagMarker (tick :: tick :: tick :: '\n' :: x) = _
  rw [stripRun_cons_of_neg h1, stripRun_cons_of_neg h2, stripRun_cons_of_neg h3,
    stripRun_cons_of_neg h4]
  rfl

/-- Core of the round-trip: the cleanup of a fence-wrapped payload (with
or without the `json` language tag) equals the cleanup of the bare
payload, whenever the payload ends at its closing `']'`. -/
theorem quizCleanup_fence_wrapped (pl : List Char) (h : pl.getLast? = some ']') :
    trimChars (stripFence (stripJsonFence (tagMarker ++ '\n' :: (pl ++ '\n' :: fenceMarker))))
      = trimChars (stripFence (stripJsonFence pl)) ∧
    trimChars (stripFence (stripJsonFence (fenceMarker ++ '\n' :: (pl ++ '\n' :: fenceMarker))))
      = trimChars (stripFence (stripJsonFence pl)) := by
  have htag_ne : tagMarker ≠ [] := by simp [tagMarker]
  have hfence_ne : fenceMarker ≠ [] := by simp [fenceMarker]
  have htag_last : tagMarker.getLast? ≠ some ']' := by decide
  have hfence_last : fenceMarker.getLast? ≠ some ']' := by decide
  have htagT : stripRun tagMarker ('\n' :: fenceMarker) = '\n' :: fenceMarker := by decide
  have hfenceT : stripRun fenceMarker ('\n' :: fenceMarker) = ['\n'] := by decide
  simp only [stripJsonFence, stripFence]
  have happ1 : stripRun tagMarker (pl ++ '\n' :: fenceMarker)
      = stripRun tagMarker pl ++ ('\n' :: fenceMarker) := by
    rw [stripRun_append_tail tagMarker htag_ne htag_last
      (fun p zs hp => tagMarker_span p zs (by simpa [tagMarker] using hp))
      pl.length pl le_rfl h, htagT]
  have hlast2 : (stripRun tagMarker pl).getLast? = some ']' :=
    stripRun_getLast tagMarker htag_ne htag_last pl.length pl le_rfl h
  have happ2 : stripRun fenceMarker (stripRun tagMarker pl ++ '\n' :: fenceMarker)
      = stripRun fenceMarker (stripRun tagMarker pl) ++ ['\n'] := by
    rw [stripRun_append_tail fenceMarker hfence_ne hfence_last
      (fun p zs hp => fenceMarker_span p zs (by simpa [fenceMarker] using hp))
      (stripRun tagMarker pl).length (stripRun tagMarker pl) le_rfl hlast2, hfenceT]
  constructor
  · rw [stripRun_match_nl tagMarker htag_ne, happ1, happ2, trimChars_append_nl]
  · rw [stripJsonFence_bare_open, happ1, stripRun_match_nl fenceMarker hfence_ne,
      happ2, trimChars_append_nl]

/-- C6: wrapping a quiz payload in markdown code fences — with or
without a `json` language tag after the opening fence — does not change
the result of the quiz parsing stage: the cleanup removes exactly the
fence markers, so `JSON.parse` receives the same text.  The payload is
taken to end at its closing bracket (a JSON quiz payload is an array, so
its last character is `']'`); no assumption beyond that last character
is needed, so every valid JSON quiz payload is covered. -/
theorem quiz_fence_roundtrip (p : String) (h : p.data.getLast? = some ']') :
    parseQuizText ("\x60\x60\x60json\n" ++ p ++ "\n\x60\x60\x60") = parseQuizText p ∧
    parseQuizText ("\x60\x60\x60\n" ++ p ++ "\n\x60\x60\x60") = parseQuizText p := by
  have e1 : ("\x60\x60\x60json\n" : String).data = tagMarker ++ ['\n'] := by decide
  have e2 : ("\n\x60\x60\x60" : String).data = '\n' :: fenceMarker := by decide
  have e3 : ("\x60\x60\x60\n" : String).data = fenceMarker ++ ['\n'] := by decide
  have hdata1 : ("\x60\x60\x60json\n" ++ p ++ "\n\x60\x60\x60").data
      = tagMarker ++ '\n' :: (p.data ++ '\n' :: fenceMarker) := by
    rw [String.data_append, String.data_append, e1, e2]
    simp
  have hdata2 : ("\x60\x60\x60\n" ++ p ++ "\n\x60\x60\x60").data
      = fenceMarker ++ '\n' :: (p.data ++ '\n' :: fenceMarker) := by
    rw [String.data_append, String.data_append, e3, e2]
    simp
  have key := quizCleanup_fence_wrapped p.data h
  constructor
  · show jsonParse (quizCleanup _) = jsonParse (quizCleanup _)
    unfold quizCleanup
    rw [hdata1, key.1]
  · show jsonParse (quizCleanup _) = jsonParse (quizCleanup _)
    unfold quizCleanup
    rw [hdata2, key.2]

/-- Witness for `quiz_fence_roundtrip` at a concrete payload. -/
theorem quiz_fence_roundtrip_witness :
    parseQuizText ("\x60\x60\x60json\n" ++ "[\"ok\"]" ++ "\n\x60\x60\x60") =
      parseQuizText "[\"ok\"]" ∧
    parseQuizText ("\x60\x60\x60\n" ++ "[\"ok\"]" ++ "\n\x60\x60\x60") =
      parseQuizText "[\"ok\"]" :=
  quiz_fence_roundtrip "[\"ok\"]" (by decide)

/-! ## The cleanup output never contains a fence marker -/

theorem hasFence_cons (c : Char) (cs : List Char) :
    hasFence (c :: cs) = (fenceMarker.isPrefixOf (c :: cs) || hasFence cs) := rfl

theorem hasFence_of_isPrefixOf {l : List Char}
    (h : fenceMarker.isPrefixOf l = true) : hasFence l = true := by
  rcases l with _ | ⟨c, cs⟩
  · simp [fenceMarker, List.isPrefixOf] at h
  · rw [hasFence_cons, h, Bool.true_or]

/-- After a rejected match at a position, the scan output cannot begin
with two backticks unless the input did. -/
theorem twoTick_not_prefix_stripRun {cs : List Char}
    (h : [tick, tick].isPrefixOf cs = false) :
    [tick, tick].isPrefixOf (stripRun fenceMarker cs) = false := by
  rcases cs with _ | ⟨d, e⟩
  · simp [stripRun_nil, List.isPrefixOf]
  · by_cases hd : d = tick
    · subst hd
      simp only [List.isPrefixOf_cons₂, beq_self_eq_true, Bool.true_and] at h
      rcases e with _ | ⟨d2, e2⟩
      · have hp : fenceMarker.isPrefixOf [tick] = false := by
          simp [fenceMarker, List.isPrefixOf_cons₂, List.isPrefixOf]
        rw [stripRun_cons_of_neg hp]
        simp [stripRun_nil, List.isPrefixOf_cons₂, List.isPrefixOf]
      · have hd2 : (tick == d2) = false := by
          simpa [List.isPrefixOf_cons₂] using h
        have hd2' : d2 ≠ tick := fun hh => by simp [hh] at hd2
        have hp : fenceMarker.isPrefixOf (tick :: d2 :: e2) = false := by
          simp [fenceMarker, List.isPrefixOf_cons₂, hd2]
        rw [stripRun_cons_of_neg hp]
        have hp2 : fenceMarker.isPrefixOf (d2 :: e2) = false := by
          simp [fenceMarker, List.isPrefixOf_cons₂,
            beq_eq_false_iff_ne.mpr (Ne.symm hd2')]
        rw [stripRun_cons_of_neg hp2]
        simp [List.isPrefixOf_cons₂, hd2]
    · have hp : fenceMarker.isPrefixOf (d :: e) = false := by
        simp [fenceMarker, List.isPrefixOf_cons₂,
          beq_eq_false_iff_ne.mpr (fun hh => hd hh.symm)]
      rw [stripRun_cons_of_neg hp]
      simp [List.isPrefixOf_cons₂, beq_eq_false_iff_ne.mpr (fun hh => hd hh.symm)]

/-- The second replace pass leaves no `\x60\x60\x60` occurrence in its
output: a global replace never keeps three consecutive backticks, because
a kept backtick right before a match would itself have started a match,
and the text kept after a removed match starts with at most two. -/
theorem hasFence_stripRun_fence :
    ∀ (k : Nat) (l : List Char), l.length ≤ k →
      hasFence (stripRun fenceMarker l) = false := by
  intro k
  induction k with
  | zero =>
    intro l hk
    have : l = [] := List.length_eq_zero.mp (Nat.le_zero.mp hk)
    subst this
    simp [stripRun_nil, hasFence]
  | succ k ih =>
    intro l hk
    by_cases hp : fenceMarker.isPrefixOf l = true
    · have hdec := isPrefixOf_eq_append hp
      rcases hu : l.drop fenceMarker.length with _ | ⟨d, u'⟩
      · rw [hu, List.append_nil] at hdec
        subst hdec
        have : stripRun fenceMarker fenceMarker = [] := by decide
        rw [this]
        simp [hasFence]
      · rw [hu] at hdec
        have hll : l.length = fenceMarker.length + (u'.length + 1) := by
          rw [hdec]; simp
        have hfl : fenceMarker.length = 3 := by decide
        by_cases hd : d = '\n'
        · subst hd
          rw [hdec, stripRun_match_nl fenceMarker (by simp [fenceMarker])]
          exact ih u' (by omega)
        · rw [hdec, stripRun_match_cons fenceMarker (by simp [fenceMarker]) u' hd]
          exact ih (d :: u') (by simp only [List.length_cons]; omega)
    · have hp' : fenceMarker.isPrefixOf l = false := Bool.not_eq_true _ |>.mp hp
      rcases l with _ | ⟨c, cs⟩
      · simp [stripRun_nil, hasFence]
      · rw [stripRun_cons_of_neg hp']
        rw [hasFence_cons]
        have hrest : hasFence (stripRun fenceMarker cs) = false :=
          ih cs (by simp only [List.length_cons] at hk; omega)
        rw [hrest, Bool.or_false]
        by_cases hc : c = tick
        · subst hc
          have h2 : [tick, tick].isPrefixOf cs = false := by
            have := hp'
            simp only [fenceMarker, List.isPrefixOf_cons₂, beq_self_eq_true,
              Bool.true_and] at this
            exact this
          have h3 := twoTick_not_prefix_stripRun h2
          simpa [fenceMarker, List.isPrefixOf_cons₂] using h3
        · simp [fenceMarker, List.isPrefixOf_cons₂,
            beq_eq_false_iff_ne.mpr (fun hh => hc hh.symm)]

theorem trimRight_isPrefixOf : ∀ l : List Char, (trimRight l).isPrefixOf l = true := by
  intro l
  induction l with
  | nil => simp [trimRight, List.isPrefixOf]
  | cons c cs ih =>
    rw [trimRight]
    rcases h : trimRight cs with _ | ⟨x, xs⟩
    · by_cases hw : isJsonWs c
      · simp [hw, List.isPrefixOf]
      · simp [hw, List.isPrefixOf_cons₂, List.isPrefixOf]
    · rw [h] at ih
      simp [List.isPrefixOf_cons₂, ih]

theorem hasFence_trimRight {l : List Char}
    (h : hasFence (trimRight l) = true) : hasFence l = true := by
  induction l with
  | nil => simpa [trimRight] using h
  | cons c cs ih =>
    rw [trimRight] at h
    rcases hr : trimRight cs with _ | ⟨x, xs⟩
    · rw [hr] at h
      by_cases hw : isJsonWs c
      · rw [if_pos hw] at h
        simp [hasFence] at h
      · rw [if_neg hw] at h
        simp [hasFence_cons, hasFence, fenceMarker, List.isPrefixOf_cons₂,
          List.isPrefixOf] at h
    · rw [hr] at h
      rw [hasFence_cons] at h ⊢
      rcases Bool.or_eq_true _ _ |>.mp h with h1 | h2
      · have hpre : (c :: x :: xs).isPrefixOf (c :: cs) = true := by
          have := trimRight_isPrefixOf cs
          rw [hr] at this
          simp [List.isPrefixOf_cons₂, this]
        rw [isPrefixOf_trans h1 hpre, Bool.true_or]
      · rw [ih (by rw [hr]; exact h2), Bool.or_true]

theorem hasFence_dropWhile {l : List Char}
    (h : hasFence (l.dropWhile isJsonWs) = true) : hasFence l = true := by
  induction l with
  | nil => simpa using h
  | cons c cs ih =>
    rw [List.dropWhile_cons] at h
    by_cases hw : isJsonWs c
    · simp only [hw, if_pos] at h
      rw [hasFence_cons, ih h, Bool.or_true]
    · simp only [hw, Bool.false_eq_true, if_neg] at h
      exact h

/-- C10: the cleanup removes every occurrence of the `\x60\x60\x60json`
and `\x60\x60\x60` sequences anywhere in the backend's response text,
not only surrounding fence markers: the text handed to `JSON.parse`
contains no `\x60\x60\x60` occurrence at all; consequently, whenever the
raw payload contains such a sequence (for instance inside a JSON string
value), the text handed to the decoder differs from the original
payload. -/
theorem cleanup_strips_all_fence_marks (raw : String) :
    hasFence (quizCleanup raw).data = false ∧
    (hasFence raw.data = true → quizCleanup raw ≠ raw) := by
  have hmain : hasFence (quizCleanup raw).data = false := by
    show hasFence (trimChars (stripFence (stripJsonFence raw.data))) = false
    have h1 : hasFence (stripFence (stripJsonFence raw.data)) = false := by
      show hasFence (stripRun fenceMarker (stripJsonFence raw.data)) = false
      exact hasFence_stripRun_fence (stripJsonFence raw.data).length _ le_rfl
    rcases hres : hasFence (trimChars (stripFence (stripJsonFence raw.data))) with _ | _
    · rfl
    · exfalso
      have h2 : hasFence (trimRight
          ((stripFence (stripJsonFence raw.data)).dropWhile isJsonWs)) = true := hres
      have h3 := hasFence_dropWhile (hasFence_trimRight h2)
      rw [h1] at h3
      exact Bool.false_ne_true h3
  refine ⟨hmain, fun hraw heq => ?_⟩
  rw [heq] at hmain
  rw [hmain] at hraw
  exact Bool.false_ne_true hraw

/-- Witness for `cleanup_strips_all_fence_marks`: a payload with a fence
sequence inside a JSON string value is altered by the cleanup. -/
theorem cleanup_strips_all_fence_marks_witness :
    quizCleanup "[\"a\x60\x60\x60b\"]" ≠ "[\"a\x60\x60\x60b\"]" :=
  (cleanup_strips_all_fence_marks "[\"a\x60\x60\x60b\"]").2 (by decide)

/-- C1 (code bug, failing input): `getQuiz` performs no structural
validation after `JSON.parse`.  When the backend returns a payload that
decodes to a one-entry array with `correctAnswer` outside A-D, the
controller answers 200/success with that invalid quiz (and
`totalQuestions = 1`) instead of failing with a generation error,
contradicting the claim that a decoded payload violating the
5-question/4-option/A-D contract is never returned. -/
theorem getQuiz_returns_contract_violating_quiz :
    (getQuiz (some demoFile) (fun _ => GenResult.ok badQuizRaw)).success = true ∧
    (getQuiz (some demoFile) (fun _ => GenResult.ok badQuizRaw)).status = 200 ∧
    (getQuiz (some demoFile) (fun _ => GenResult.ok badQuizRaw)).quiz = some badQuizVal ∧
    specQuizShape badQuizVal = false ∧
    (getQuiz (some demoFile) (fun _ => GenResult.ok badQuizRaw)).totalQuestions = some 1 := by
  exact ⟨rfl, rfl, rfl, rfl, rfl⟩

end StudyGeni
